import Mathlib

/-!
Verification of the Lorenz-attractor background renderer
(`source/js/lorenz-background.js`), shallowly embedded in Lean.

JavaScript numbers are finite floating-point values, hence rationals, so
the purely arithmetic parts of the program are modelled over an arbitrary
linear ordered field (instantiated at `ℚ` for executable statements).
The transcendental operations (`Math.sin`, `Math.cos`, `Math.sqrt`) are
modelled over `ℝ`.  The 32-bit signed bitwise operations used by the
spatial-hash key (`<<`, `|`, `&`, `|0`) are modelled exactly on `ℤ`.
Randomness (`Math.random()`, always in `[0,1)`) is passed in explicitly.
-/

namespace LorenzBg

/-- The two sprite color classes assigned by `createParticle`
(`'grey'` with probability 0.9, `'terracotta'` otherwise). -/
inductive ColorType where
  | grey : ColorType
  | terracotta : ColorType
  deriving DecidableEq

/-- The flat particle record created by `createParticle`, generic over the
number type. -/
structure Particle (α : Type) where
  x : α
  y : α
  z : α
  screenX : α
  screenY : α
  noiseSeedX : α
  noiseSeedY : α
  size : α
  brightness : α
  colorType : ColorType
  side : ℕ
  depthScale : α
  deriving DecidableEq

section GenericDefs

variable {α : Type} [LinearOrderedField α]

/-- `updateLorenz(p)`: one explicit Euler step of the Lorenz system with the
constants inlined in the source (`10`, `28`, `2.6667`, `0.003`), followed by
the out-of-bounds reseed.  The three `Math.random()` results used by the
reseed branch are the explicit arguments `r1 r2 r3`. -/
def updateLorenz (p : Particle α) (r1 r2 r3 : α) : Particle α :=
  let dx := 10 * (p.y - p.x) * 0.003
  let dy := (p.x * (28 - p.z) - p.y) * 0.003
  let dz := (p.x * p.y - 2.6667 * p.z) * 0.003
  let x := p.x + dx
  let y := p.y + dy
  let z := p.z + dz
  if x < -50 ∨ x > 50 ∨ y < -50 ∨ y > 50 ∨ z > 80 ∨ z < 0 then
    { p with x := (r1 - 0.5) * 20, y := (r2 - 0.5) * 20, z := r3 * 20 + 15 }
  else
    { p with x := x, y := y, z := z }

/-- `createParticle(side)`: the eight `Math.random()` results are the
explicit arguments, in source order. -/
def createParticle (side : ℕ) (rx ry rz rsx rsy rsz rbr rc : α) : Particle α :=
  { x := (rx - 0.5) * 30
    y := (ry - 0.5) * 30
    z := rz * 30 + 10
    screenX := 0
    screenY := 0
    noiseSeedX := rsx * 100
    noiseSeedY := rsy * 100
    size := 1 + rsz * (3.5 - 1)
    brightness := 0.4 + rbr * 0.6
    colorType := if rc < 0.9 then ColorType.grey else ColorType.terracotta
    side := side
    depthScale := 1 }

/-- `n` successive calls of `updateLorenz` on one particle, the `k`-th call
consuming the random triple `rands k`. -/
def iterateLorenz (rands : ℕ → α × α × α) (p : Particle α) : ℕ → Particle α
  | 0 => p
  | n + 1 =>
      updateLorenz (iterateLorenz rands p n)
        (rands n).1 (rands n).2.1 (rands n).2.2

/-- The reseed bounds of `updateLorenz`: the negation of its reset
condition `x < -50 || x > 50 || y < -50 || y > 50 || z > 80 || z < 0`. -/
def inBounds (p : Particle α) : Prop :=
  -50 ≤ p.x ∧ p.x ≤ 50 ∧ -50 ≤ p.y ∧ p.y ≤ 50 ∧ 0 ≤ p.z ∧ p.z ≤ 80

/-- `calculateOpacity(screenX)`, with the cached globals `centerX`,
`marginInnerEdge`, `fadeZone` as explicit parameters. -/
def calculateOpacity (centerX marginInnerEdge fadeZone screenX : α) : α :=
  let distFromCenter := if screenX > centerX then screenX - centerX else centerX - screenX
  if distFromCenter < marginInnerEdge then 0
  else
    let posInMargin := distFromCenter - marginInnerEdge
    if posInMargin < fadeZone then posInMargin / fadeZone
    else 1

/-- `centerX = width / 2` from `initCanvas`. -/
def centerXOf (width : α) : α := width / 2

/-- `marginWidth = width * CONFIG.marginPercent` from `initCanvas`. -/
def marginWidthOf (width : α) : α := width * 0.32

/-- `fadeZone = width * CONFIG.fadeZonePercent` from `initCanvas`. -/
def fadeZoneOf (width : α) : α := width * 0.1

/-- `marginInnerEdge = centerX - marginWidth` from `initCanvas`. -/
def marginInnerEdgeOf (width : α) : α := centerXOf width - marginWidthOf width

/-- Truncation toward zero, as performed by JavaScript `| 0` and by the
integer part of the float remainder operator `%`. -/
def jsTrunc [FloorRing α] (q : α) : ℤ := if 0 ≤ q then ⌊q⌋ else ⌈q⌉

/-- JavaScript float remainder `a % b` (sign of the dividend). -/
def jsMod [FloorRing α] (a b : α) : α := a - b * (jsTrunc (a / b) : ℤ)

end GenericDefs

/-- The unsigned 32-bit pattern of an integer (`ToUint32`). -/
def toNat32 (n : ℤ) : ℕ := (n % 4294967296).toNat

/-- JavaScript `ToInt32`: wrap into `[-2^31, 2^31)`. -/
def toInt32 (n : ℤ) : ℤ := (n + 2147483648) % 4294967296 - 2147483648

/-- JavaScript `n << 16` on numbers: `ToInt32` the operand, shift, wrap. -/
def jsShl16 (n : ℤ) : ℤ := toInt32 (toInt32 n * 65536)

/-- JavaScript bitwise `a & b` with 32-bit signed semantics. -/
def jsAnd (a b : ℤ) : ℤ := toInt32 (Nat.land (toNat32 a) (toNat32 b))

/-- JavaScript bitwise `a | b` with 32-bit signed semantics. -/
def jsOr (a b : ℤ) : ℤ := toInt32 (Nat.lor (toNat32 a) (toNat32 b))

/-- The spatial-hash key `(cellX << 16) | (cellY & 0xFFFF)` from
`buildSpatialHash` / `getNearbyParticles`. -/
def cellKey (cellX cellY : ℤ) : ℤ := jsOr (jsShl16 cellX) (jsAnd cellY 65535)

/-- A JavaScript `Map` from packed cell keys to arrays of particle indices,
modelled as an association list in insertion order. -/
abbrev SpatialMap := List (ℤ × List ℕ)

/-- `spatialHash.get(key)`. -/
def mapGet (m : SpatialMap) (k : ℤ) : Option (List ℕ) :=
  match m with
  | [] => none
  | (k2, v) :: rest => if k2 = k then some v else mapGet rest k

/-- The body of the `buildSpatialHash` loop for one particle index: fetch
the cell array, creating it when absent, and push the index. -/
def mapPush (m : SpatialMap) (k : ℤ) (i : ℕ) : SpatialMap :=
  match m with
  | [] => [(k, [i])]
  | (k2, v) :: rest =>
      if k2 = k then (k2, v ++ [i]) :: rest else (k2, v) :: mapPush rest k i

section SpatialDefs

variable {α : Type} [LinearOrderedField α] [FloorRing α]

/-- `(p.screenX / cellSize) | 0` with `cellSize = CONFIG.connectionDistance
= 70`: truncate toward zero, then `ToInt32`. -/
def cellCoord (v : α) : ℤ := toInt32 (jsTrunc (v / 70))

/-- The packed key of the cell containing a particle's screen position. -/
def particleKey (p : Particle α) : ℤ :=
  cellKey (cellCoord p.screenX) (cellCoord p.screenY)

/-- The indexed loop of `buildSpatialHash`. -/
def buildHashAux : List (Particle α) → ℕ → SpatialMap → SpatialMap
  | [], _, m => m
  | p :: rest, i, m => buildHashAux rest (i + 1) (mapPush m (particleKey p) i)

/-- `buildSpatialHash()`: clear the map and insert every particle index
under its cell key. -/
def buildSpatialHash (ps : List (Particle α)) : SpatialMap :=
  buildHashAux ps 0 []

/-- `getNearbyParticles(p, buffer)`: concatenate the buckets of the 3x3
block of cells around the particle's cell, in loop order. -/
def getNearbyParticles (hash : SpatialMap) (p : Particle α) : List ℕ :=
  ([-1, 0, 1] : List ℤ).flatMap fun dx =>
    ([-1, 0, 1] : List ℤ).flatMap fun dy =>
      (mapGet hash (cellKey (cellCoord p.screenX + dx) (cellCoord p.screenY + dy))).getD []

/-- The inner `for (k ...)` loop of the connection pass in `render`, for
particle `i` with record `p1` and neighbor-query result `nearby`.  An
element `(i, j, distSq)` records that a line from `i` to `j` at squared
screen distance `distSq` reaches the `Math.sqrt` / alpha computation; the
source's locals `dx`, `dy` are inlined. -/
def connInner (ps : List (Particle α)) (ops : List α) (i : ℕ) (p1 : Particle α)
    (nearby : List ℕ) : List (ℕ × ℕ × α) :=
  nearby.flatMap fun j =>
    if j ≤ i then []
    else
      match ps.get? j with
      | none => []
      | some p2 =>
          if p1.side ≠ p2.side then []
          else if ops.getD j 0 < 0.01 then []
          else if (p2.screenX - p1.screenX) * (p2.screenX - p1.screenX) +
              (p2.screenY - p1.screenY) * (p2.screenY - p1.screenY) < 4900 then
            [(i, j, (p2.screenX - p1.screenX) * (p2.screenX - p1.screenX) +
              (p2.screenY - p1.screenY) * (p2.screenY - p1.screenY))]
          else []

/-- The outer `for (i ...)` loop of the connection pass. -/
def connAux (ps : List (Particle α)) (ops : List α) (hash : SpatialMap) :
    List (Particle α) → ℕ → List (ℕ × ℕ × α)
  | [], _ => []
  | p1 :: rest, i =>
      (if ops.getD i 0 < 0.01 then []
       else connInner ps ops i p1 (getNearbyParticles hash p1)) ++
      connAux ps ops hash rest (i + 1)

/-- All `(i, j, distSq)` triples of the connection pass of one active frame
that pass the squared-distance test (`distSq < CONFIG.connectionDistanceSq`),
with the spatial hash rebuilt from the particles, as in `render`. -/
def connPairs (ps : List (Particle α)) (ops : List α) : List (ℕ × ℕ × α) :=
  connAux ps ops (buildSpatialHash ps) ps 0

end SpatialDefs

/-- The connection alpha `(1 - dist / CONFIG.connectionDistance) * 0.25 *
Math.min(opacity1, opacity2)` with `dist = Math.sqrt(distSq)`. -/
noncomputable def lineAlpha (distSq opMin : ℚ) : ℝ :=
  (1 - Real.sqrt (distSq : ℝ) / 70) * 0.25 * (opMin : ℝ)

/-- A line between particles `i` and `j` with alpha `a` is stroked by the
connection pass of `render`: the pair survives every guard of the loops and
the final `alpha > 0.01` test. -/
noncomputable def LineDrawn (ps : List (Particle ℚ)) (ops : List ℚ) (i j : ℕ) (a : ℝ) : Prop :=
  ∃ d : ℚ, (i, j, d) ∈ connPairs ps ops ∧
    a = lineAlpha d (min (ops.getD i 0) (ops.getD j 0)) ∧ 0.01 < a

/-- `smoothNoise(x, y, t)`. -/
noncomputable def smoothNoise (x y t : ℝ) : ℝ :=
  Real.sin (x * 1.3 + t) * Real.cos (y * 0.9 + t * 0.7) * 0.5 +
  Real.sin (x * 2.1 - t * 0.5) * Real.sin (y * 1.7 + t * 0.3) * 0.3 +
  Real.cos (x * 0.8 + y * 1.1 + t * 0.9) * 0.2

/-- `projectToScreen(p)`, with the globals `width`, `height`, `marginWidth`
and `time` as explicit parameters. -/
noncomputable def projectToScreen (width height marginWidth time : ℝ) (p : Particle ℝ) :
    Particle ℝ :=
  let normX := (p.x + 25) * 0.02
  let normY := (p.y + 25) * 0.02
  let normZ := p.z * 0.02
  let noiseX := smoothNoise (p.noiseSeedX * 0.5) (p.noiseSeedY * 0.5) time
  let noiseY := smoothNoise (p.noiseSeedY * 0.5 + 50) (p.noiseSeedX * 0.5 + 50) (time * 0.8)
  let baseX := jsMod p.noiseSeedX 1
  let baseY := jsMod p.noiseSeedY 1
  let blendedX := baseX * 0.7 + normX * 0.3
  let blendedY := baseY * 0.7 + normY * 0.3
  let finalX := blendedX + noiseX * 0.15
  let finalY := blendedY + noiseY * 0.2
  let sx :=
    if p.side = 0 then
      let raw := finalX * marginWidth * 1.2
      if raw < -20 then -20
      else if raw > marginWidth + width * 0.08 then marginWidth + width * 0.08
      else raw
    else
      let raw := width - marginWidth - width * 0.08 + finalX * marginWidth * 1.2
      if raw > width + 20 then width + 20
      else if raw < width - marginWidth - width * 0.08 then width - marginWidth - width * 0.08
      else raw
  let padding := height * 0.02
  let rawY := padding + finalY * (height - padding * 2)
  let sy := if rawY < -20 then -20 else if rawY > height + 20 then height + 20 else rawY
  { p with screenX := sx, screenY := sy, depthScale := 0.7 + normZ * 0.3 }

/-- The mutable simulation state touched by the `render` loop. -/
structure SimState where
  particles : List (Particle ℝ)
  opacities : List ℝ
  time : ℝ
  lastFrameTime : ℝ
  spatialHash : SpatialMap

/-- The per-particle update loop of an active frame: `updateLorenz` then
`projectToScreen` for each particle, index `i` consuming `rands i`. -/
noncomputable def updateAll (width height marginWidth t : ℝ) (rands : ℕ → ℝ × ℝ × ℝ) :
    List (Particle ℝ) → ℕ → List (Particle ℝ)
  | [], _ => []
  | p :: rest, i =>
      projectToScreen width height marginWidth t
        (updateLorenz p (rands i).1 (rands i).2.1 (rands i).2.2) ::
      updateAll width height marginWidth t rands rest (i + 1)

/-- One invocation of `render(currentTime)`, restricted to its effect on the
simulation state (canvas drawing has no simulation-state effect): the hidden
and throttled branches return unchanged state; the active branch advances
`time` by `CONFIG.noiseSpeed = 0.0006`, updates and projects every particle,
recomputes the opacities, rebuilds the spatial hash and records
`lastFrameTime = currentTime`.  `FRAME_INTERVAL = 1000 / TARGET_FPS` with
`TARGET_FPS = 30`. -/
noncomputable def renderStep (isVisible : Bool) (currentTime : ℝ)
    (width height marginWidth centerX marginInnerEdge fadeZone : ℝ)
    (rands : ℕ → ℝ × ℝ × ℝ) (s : SimState) : SimState :=
  if isVisible = false then s
  else if currentTime - s.lastFrameTime < 1000 / 30 then s
  else
    let t2 := s.time + 0.0006
    let ps2 := updateAll width height marginWidth t2 rands s.particles 0
    { particles := ps2
      opacities := ps2.map fun p => calculateOpacity centerX marginInnerEdge fadeZone p.screenX
      time := t2
      lastFrameTime := currentTime
      spatialHash := buildSpatialHash ps2 }


/-- A concrete in-bounds particle state used to probe `updateLorenz`. -/
def probeP : Particle ℚ :=
  { x := 0, y := 0, z := 3, screenX := 0, screenY := 0, noiseSeedX := 0, noiseSeedY := 0,
    size := 1, brightness := 1, colorType := ColorType.grey, side := 0, depthScale := 1 }

/-- A concrete left-side particle at screen position (0, 0) with neutral
remaining fields. -/
def exLeftA : Particle ℚ :=
  { x := 0, y := 0, z := 20, screenX := 0, screenY := 0, noiseSeedX := 0, noiseSeedY := 0,
    size := 1, brightness := 1, colorType := ColorType.grey, side := 0, depthScale := 1 }

/-- The same particle moved to screen position (10, 0): distance 10 from
`exLeftA`. -/
def exLeftB : Particle ℚ := { exLeftA with screenX := 10 }

/-- The same particle moved to screen position (80, 0): distance 80 from
`exLeftA`. -/
def exLeftC : Particle ℚ := { exLeftA with screenX := 80 }

/-- A concrete real-valued particle on the left side. -/
def exRealP : Particle ℝ :=
  { x := 0, y := 0, z := 20, screenX := 0, screenY := 0, noiseSeedX := 0, noiseSeedY := 0,
    size := 1, brightness := 1, colorType := ColorType.grey, side := 0, depthScale := 1 }

/-- An empty concrete simulation state. -/
def exState : SimState :=
  { particles := [], opacities := [], time := 0, lastFrameTime := 0, spatialHash := [] }

end LorenzBg

/-! ### Helper lemmas and concrete probe values -/

namespace LorenzBg



/-- One call of `updateLorenz` always lands inside the reseed bounds when the
random inputs are in `[0,1)`: either the Euler-stepped state passes the bounds
test, or the reseed target `[-10,10] × [-10,10] × [15,35]` is inside them. -/
theorem updateLorenz_inBounds (p : Particle ℚ) (r1 r2 r3 : ℚ)
    (h1 : 0 ≤ r1) (h2 : r1 < 1) (h3 : 0 ≤ r2) (h4 : r2 < 1) (h5 : 0 ≤ r3) (h6 : r3 < 1) :
    inBounds (updateLorenz p r1 r2 r3) := by
  simp only [updateLorenz, inBounds]
  split
  · refine ⟨?_, ?_, ?_, ?_, ?_, ?_⟩ <;> dsimp only <;> nlinarith
  · next h =>
      push_neg at h
      obtain ⟨a1, a2, a3, a4, a5, a6⟩ := h
      exact ⟨a1, a2, a3, a4, a6, a5⟩

end LorenzBg

namespace LorenzBg

/-- Claim C1 counterexample: at the in-bounds state `(x, y, z) = (0, 0, 3)`
(no reseed occurs), the z-coordinate produced by `updateLorenz` differs from
the value `z + (x*y - (8/3)*z)*0.003` demanded by the claim, because the
source inlines `2.6667` in place of `beta = 8/3`. -/
theorem C1_counterexample :
    (updateLorenz probeP 0 0 0).z ≠
      probeP.z + (probeP.x * probeP.y - 8 / 3 * probeP.z) * 0.003 := by
  norm_num [updateLorenz, probeP]

/-- Claim C1 (amended): whenever the Euler-stepped coordinates pass the
bounds test, one call of `updateLorenz` advances the state by exactly
`dx = 10*(y - x)*0.003`, `dy = (x*(28 - z) - y)*0.003`,
`dz = (x*y - 2.6667*z)*0.003` — the source's inlined coefficient `2.6667`,
not `8/3` — computed from the pre-call state in exact rational arithmetic,
and the bounds check is applied only to the already-advanced state. -/
theorem C1_euler_step (p : Particle ℚ) (r1 r2 r3 : ℚ)
    (h : ¬ (p.x + 10 * (p.y - p.x) * 0.003 < -50 ∨ p.x + 10 * (p.y - p.x) * 0.003 > 50 ∨
        p.y + (p.x * (28 - p.z) - p.y) * 0.003 < -50 ∨
        p.y + (p.x * (28 - p.z) - p.y) * 0.003 > 50 ∨
        p.z + (p.x * p.y - 2.6667 * p.z) * 0.003 > 80 ∨
        p.z + (p.x * p.y - 2.6667 * p.z) * 0.003 < 0)) :
    (updateLorenz p r1 r2 r3).x = p.x + 10 * (p.y - p.x) * 0.003 ∧
    (updateLorenz p r1 r2 r3).y = p.y + (p.x * (28 - p.z) - p.y) * 0.003 ∧
    (updateLorenz p r1 r2 r3).z = p.z + (p.x * p.y - 2.6667 * p.z) * 0.003 := by
  simp only [updateLorenz]
  rw [if_neg h]
  exact ⟨rfl, rfl, rfl⟩

/-- Witness for `C1_euler_step` at the concrete state `probeP`. -/
theorem C1_euler_step_witness :
    (updateLorenz probeP 1 1 1).x = probeP.x + 10 * (probeP.y - probeP.x) * 0.003 ∧
    (updateLorenz probeP 1 1 1).y = probeP.y + (probeP.x * (28 - probeP.z) - probeP.y) * 0.003 ∧
    (updateLorenz probeP 1 1 1).z = probeP.z + (probeP.x * probeP.y - 2.6667 * probeP.z) * 0.003 :=
  C1_euler_step probeP 1 1 1 (by norm_num [probeP])

end LorenzBg

namespace LorenzBg

/-- Claim C5: (1) after any single call of `updateLorenz` with random inputs
in `[0,1)` the state satisfies `-50 ≤ x ≤ 50`, `-50 ≤ y ≤ 50`, `0 ≤ z ≤ 80`;
(2) when the Euler-stepped state fails the bounds test, the same call
reassigns all three coordinates to a fresh point with `x, y ∈ [-10, 10]` and
`z ∈ [15, 35]`; (3) hence the bounds hold after any number of integration
steps starting from `createParticle`'s initial state. -/
theorem C5_bounds_invariant :
    (∀ (p : Particle ℚ) (r1 r2 r3 : ℚ),
      0 ≤ r1 → r1 < 1 → 0 ≤ r2 → r2 < 1 → 0 ≤ r3 → r3 < 1 →
      inBounds (updateLorenz p r1 r2 r3)) ∧
    (∀ (p : Particle ℚ) (r1 r2 r3 : ℚ),
      0 ≤ r1 → r1 < 1 → 0 ≤ r2 → r2 < 1 → 0 ≤ r3 → r3 < 1 →
      (p.x + 10 * (p.y - p.x) * 0.003 < -50 ∨ p.x + 10 * (p.y - p.x) * 0.003 > 50 ∨
        p.y + (p.x * (28 - p.z) - p.y) * 0.003 < -50 ∨
        p.y + (p.x * (28 - p.z) - p.y) * 0.003 > 50 ∨
        p.z + (p.x * p.y - 2.6667 * p.z) * 0.003 > 80 ∨
        p.z + (p.x * p.y - 2.6667 * p.z) * 0.003 < 0) →
      -10 ≤ (updateLorenz p r1 r2 r3).x ∧ (updateLorenz p r1 r2 r3).x ≤ 10 ∧
      -10 ≤ (updateLorenz p r1 r2 r3).y ∧ (updateLorenz p r1 r2 r3).y ≤ 10 ∧
      15 ≤ (updateLorenz p r1 r2 r3).z ∧ (updateLorenz p r1 r2 r3).z ≤ 35) ∧
    (∀ (side : ℕ) (rx ry rz rsx rsy rsz rbr rc : ℚ) (rands : ℕ → ℚ × ℚ × ℚ),
      0 ≤ rx → rx < 1 → 0 ≤ ry → ry < 1 → 0 ≤ rz → rz < 1 →
      (∀ n, 0 ≤ (rands n).1 ∧ (rands n).1 < 1 ∧ 0 ≤ (rands n).2.1 ∧ (rands n).2.1 < 1 ∧
        0 ≤ (rands n).2.2 ∧ (rands n).2.2 < 1) →
      ∀ n, inBounds (iterateLorenz rands (createParticle side rx ry rz rsx rsy rsz rbr rc) n)) := by
  refine ⟨fun p r1 r2 r3 h1 h2 h3 h4 h5 h6 => updateLorenz_inBounds p r1 r2 r3 h1 h2 h3 h4 h5 h6,
    ?_, ?_⟩
  · intro p r1 r2 r3 h1 h2 h3 h4 h5 h6 hout
    simp only [updateLorenz]
    rw [if_pos hout]
    refine ⟨?_, ?_, ?_, ?_, ?_, ?_⟩ <;> dsimp only <;> nlinarith
  · intro side rx ry rz rsx rsy rsz rbr rc rands hx1 hx2 hy1 hy2 hz1 hz2 hr n
    induction n with
    | zero =>
        simp only [iterateLorenz, inBounds, createParticle]
        refine ⟨?_, ?_, ?_, ?_, ?_, ?_⟩ <;> nlinarith
    | succ n _ =>
        obtain ⟨b1, b2, b3, b4, b5, b6⟩ := hr n
        exact updateLorenz_inBounds _ _ _ _ b1 b2 b3 b4 b5 b6

/-- Witness for `C5_bounds_invariant`: two steps from a concrete initial
particle with the all-zero random stream. -/
theorem C5_bounds_invariant_witness :
    ((0 : ℚ) ≤ 0 ∧ (0 : ℚ) < 1) ∧
    inBounds (iterateLorenz (fun _ => ((0 : ℚ), (0 : ℚ), (0 : ℚ)))
      (createParticle 0 0 0 0 0 0 0 0 0) 2) :=
  ⟨⟨le_refl 0, by norm_num⟩,
    C5_bounds_invariant.2.2 0 0 0 0 0 0 0 0 0 (fun _ => (0, 0, 0))
      (by norm_num) (by norm_num) (by norm_num) (by norm_num) (by norm_num) (by norm_num)
      (fun _ => by norm_num) 2⟩

end LorenzBg

namespace LorenzBg

/-- `calculateOpacity` as a function of the absolute distance from the
center line: the source's conditional `screenX > centerX ? screenX - centerX
: centerX - screenX` computes `|screenX - centerX|`. -/
theorem calculateOpacity_eq_dist (c e f sx : ℚ) :
    calculateOpacity c e f sx =
      (if |sx - c| < e then 0
       else if |sx - c| - e < f then (|sx - c| - e) / f else 1) := by
  have habs : (if sx > c then sx - c else c - sx) = |sx - c| := by
    rcases le_or_lt sx c with hle | hlt
    · rw [if_neg (not_lt.mpr hle), abs_sub_comm, abs_of_nonneg (by linarith)]
    · rw [if_pos hlt, abs_of_pos (by linarith)]
  simp only [calculateOpacity, habs]

/-- The opacity value is nonnegative. -/
theorem calculateOpacity_nonneg (c e f sx : ℚ) (hf : 0 < f) :
    0 ≤ calculateOpacity c e f sx := by
  rw [calculateOpacity_eq_dist]
  split_ifs with h1 h2
  · exact le_refl 0
  · exact div_nonneg (by linarith [not_lt.mp h1]) (le_of_lt hf)
  · exact zero_le_one

/-- The opacity value is at most one. -/
theorem calculateOpacity_le_one (c e f sx : ℚ) (hf : 0 < f) :
    calculateOpacity c e f sx ≤ 1 := by
  rw [calculateOpacity_eq_dist]
  split_ifs with h1 h2
  · exact zero_le_one
  · exact le_of_lt ((div_lt_one hf).mpr h2)
  · exact le_refl 1

/-- The opacity is monotone in the distance from the center line. -/
theorem calculateOpacity_mono (c e f sx1 sx2 : ℚ) (hf : 0 < f)
    (h : |sx1 - c| ≤ |sx2 - c|) :
    calculateOpacity c e f sx1 ≤ calculateOpacity c e f sx2 := by
  have hn := calculateOpacity_nonneg c e f sx2 hf
  rw [calculateOpacity_eq_dist c e f sx2] at hn
  rw [calculateOpacity_eq_dist c e f sx1, calculateOpacity_eq_dist c e f sx2]
  by_cases h1 : |sx1 - c| < e
  · rw [if_pos h1]
    exact hn
  · rw [if_neg h1]
    have he : e ≤ |sx1 - c| := not_lt.mp h1
    have h1b : ¬ |sx2 - c| < e := not_lt.mpr (le_trans he h)
    rw [if_neg h1b]
    by_cases h2 : |sx1 - c| - e < f
    · rw [if_pos h2]
      by_cases h3 : |sx2 - c| - e < f
      · rw [if_pos h3]
        exact (div_le_div_iff_of_pos_right hf).mpr (by linarith)
      · rw [if_neg h3]
        exact le_of_lt ((div_lt_one hf).mpr h2)
    · rw [if_neg h2]
      have h3 : ¬ |sx2 - c| - e < f := fun hc => h2 (by linarith)
      rw [if_neg h3]

end LorenzBg

namespace LorenzBg

/-- Claim C4: with positive fade zone, `calculateOpacity` is bounded in
`[0,1]`, monotone in the distance from the center line, zero up to and
including the inner edge, a linear ramp across the fade zone and one at and
beyond its outer end; with a positive width the cached `marginInnerEdge` and
`fadeZone` of `initCanvas` are positive; and at inner edge 100 and fade zone
20 the distances 90, 110, 130 give opacities 0, 0.5, 1. -/
theorem C4_opacity_mask :
    (∀ c e f sx : ℚ, 0 < f →
      0 ≤ calculateOpacity c e f sx ∧ calculateOpacity c e f sx ≤ 1) ∧
    (∀ c e f sx1 sx2 : ℚ, 0 < f → |sx1 - c| ≤ |sx2 - c| →
      calculateOpacity c e f sx1 ≤ calculateOpacity c e f sx2) ∧
    (∀ c e f sx : ℚ, 0 < f → |sx - c| ≤ e → calculateOpacity c e f sx = 0) ∧
    (∀ c e f sx : ℚ, 0 < f → e ≤ |sx - c| → |sx - c| ≤ e + f →
      calculateOpacity c e f sx = (|sx - c| - e) / f) ∧
    (∀ c e f sx : ℚ, 0 < f → e + f ≤ |sx - c| → calculateOpacity c e f sx = 1) ∧
    (∀ w : ℚ, 0 < w → 0 < marginInnerEdgeOf w ∧ 0 < fadeZoneOf w) ∧
    (calculateOpacity (0 : ℚ) 100 20 90 = 0 ∧ calculateOpacity (0 : ℚ) 100 20 110 = 0.5 ∧
      calculateOpacity (0 : ℚ) 100 20 130 = 1) := by
  refine ⟨fun c e f sx hf => ⟨calculateOpacity_nonneg c e f sx hf,
      calculateOpacity_le_one c e f sx hf⟩,
    fun c e f sx1 sx2 hf h => calculateOpacity_mono c e f sx1 sx2 hf h, ?_, ?_, ?_, ?_, ?_⟩
  · intro c e f sx hf hle
    rw [calculateOpacity_eq_dist]
    rcases lt_or_eq_of_le hle with hlt | heq
    · rw [if_pos hlt]
    · rw [if_neg (not_lt.mpr (le_of_eq heq.symm)), heq, if_pos (by linarith)]
      rw [sub_self, zero_div]
  · intro c e f sx hf h1 h2
    rw [calculateOpacity_eq_dist]
    rcases lt_or_eq_of_le h2 with hlt | heq
    · rw [if_neg (not_lt.mpr h1), if_pos (by linarith)]
    · rw [if_neg (not_lt.mpr h1), if_neg (by rw [heq]; simp), heq]
      field_simp
  · intro c e f sx hf h1
    rw [calculateOpacity_eq_dist]
    rw [if_neg (by push_neg; linarith), if_neg (by push_neg; linarith)]
  · intro w hw
    constructor
    · simp only [marginInnerEdgeOf, centerXOf, marginWidthOf]
      nlinarith
    · simp only [fadeZoneOf]
      nlinarith
  · refine ⟨?_, ?_, ?_⟩
    · rw [calculateOpacity_eq_dist, if_pos (by norm_num : |(90 : ℚ) - 0| < 100)]
    · rw [calculateOpacity_eq_dist, if_neg (by norm_num : ¬ |(110 : ℚ) - 0| < 100),
        if_pos (by norm_num : |(110 : ℚ) - 0| - 100 < 20)]
      norm_num
    · rw [calculateOpacity_eq_dist, if_neg (by norm_num : ¬ |(130 : ℚ) - 0| < 100),
        if_neg (by norm_num : ¬ |(130 : ℚ) - 0| - 100 < 20)]

/-- Witness for `C4_opacity_mask`: bounds at a concrete geometry. -/
theorem C4_opacity_mask_witness :
    ((0 : ℚ) < 20) ∧
    (0 ≤ calculateOpacity (0 : ℚ) 100 20 55 ∧ calculateOpacity (0 : ℚ) 100 20 55 ≤ 1) :=
  ⟨by norm_num, C4_opacity_mask.1 0 100 20 55 (by norm_num)⟩

end LorenzBg

namespace LorenzBg

/-- `n & 0xFFFF` on bit patterns is reduction mod `2^16`. -/
theorem land_mask16 (n : ℕ) : Nat.land n 65535 = n % 65536 := by
  have h := Nat.and_pow_two_sub_one_eq_mod n 16
  norm_num at h
  exact h

/-- Joining a low-16-bit-clean value with a 16-bit value by `|` is
addition. -/
theorem lor_mask16 (h l : ℕ) (hl : l < 65536) :
    Nat.lor (h * 65536) l = h * 65536 + l := by
  have hx := Nat.mul_add_lt_is_or (i := 16) (b := l) (by norm_num; exact hl) h
  norm_num at hx
  rw [mul_comm 65536 h] at hx
  exact hx.symm

/-- `cellY & 0xFFFF` in the JavaScript model equals `cellY mod 2^16`. -/
theorem jsAnd_mask16 (b : ℤ) : jsAnd b 65535 = b % 65536 := by
  unfold jsAnd
  have h1 : toNat32 65535 = 65535 := by unfold toNat32; decide
  rw [h1, land_mask16]
  unfold toNat32 toInt32
  omega

/-- The bit pattern of `cellX << 16` is the low 16 bits of `cellX` shifted
up. -/
theorem toNat32_jsShl16 (a : ℤ) : toNat32 (jsShl16 a) = (a % 65536).toNat * 65536 := by
  unfold jsShl16 toInt32 toNat32
  omega

/-- Closed form of the packed spatial-hash key: the low 16 bits of `cellX`
above the low 16 bits of `cellY`, reinterpreted as a signed 32-bit value. -/
theorem cellKey_eq (cx cy : ℤ) :
    cellKey cx cy =
      toInt32 (((cx % 65536).toNat * 65536 + (cy % 65536).toNat : ℕ) : ℤ) := by
  unfold cellKey jsOr
  have h2 : toNat32 (jsAnd cy 65535) = (cy % 65536).toNat := by
    rw [jsAnd_mask16]
    unfold toNat32
    omega
  rw [toNat32_jsShl16, h2, lor_mask16 _ _ (by omega)]

/-- The packed key only depends on the cell coordinates mod `2^16`. -/
theorem cellKey_congr (a b a2 b2 : ℤ) (ha : a % 65536 = a2 % 65536)
    (hb : b % 65536 = b2 % 65536) : cellKey a b = cellKey a2 b2 := by
  rw [cellKey_eq, cellKey_eq, ha, hb]

/-- Claim C3: the key encoding `(cellX << 16) | (cellY & 0xFFFF)` under
JavaScript 32-bit signed semantics is injective on cell coordinates in
`[-1, 65534]`: distinct pairs give distinct keys. -/
theorem C3_cellKey_injective (x1 y1 x2 y2 : ℤ)
    (hx1 : -1 ≤ x1) (hx1b : x1 ≤ 65534) (hy1 : -1 ≤ y1) (hy1b : y1 ≤ 65534)
    (hx2 : -1 ≤ x2) (hx2b : x2 ≤ 65534) (hy2 : -1 ≤ y2) (hy2b : y2 ≤ 65534)
    (hne : ¬ (x1 = x2 ∧ y1 = y2)) :
    cellKey x1 y1 ≠ cellKey x2 y2 := by
  intro heq
  rw [cellKey_eq, cellKey_eq] at heq
  unfold toInt32 at heq
  refine hne ⟨?_, ?_⟩ <;> omega

/-- Witness for `C3_cellKey_injective`: the neighboring cells `(-1, 0)` and
`(0, 0)` receive the distinct keys `-65536` and `0`. -/
theorem C3_cellKey_injective_witness :
    (¬ ((-1 : ℤ) = 0 ∧ (0 : ℤ) = 0)) ∧ cellKey (-1) 0 ≠ cellKey 0 0 :=
  ⟨by norm_num,
    C3_cellKey_injective (-1) 0 0 0 (by norm_num) (by norm_num) (by norm_num) (by norm_num)
      (by norm_num) (by norm_num) (by norm_num) (by norm_num) (by norm_num)⟩

end LorenzBg

namespace LorenzBg

/-- Truncation toward zero is monotone. -/
theorem jsTrunc_mono {a b : ℚ} (h : a ≤ b) : jsTrunc a ≤ jsTrunc b := by
  unfold jsTrunc
  split_ifs with h1 h2 h2
  · exact Int.floor_le_floor h
  · exact absurd (le_trans h1 h) h2
  · have hc : ⌈a⌉ ≤ 0 := Int.ceil_le.mpr (by exact_mod_cast le_of_lt (not_le.mp h1))
    have hf : 0 ≤ ⌊b⌋ := Int.floor_nonneg.mpr h2
    omega
  · exact Int.ceil_le_ceil h

/-- Moving a value up by at most one moves its truncation up by at most
one. -/
theorem jsTrunc_le_succ {a b : ℚ} (h1 : a ≤ b) (h2 : b ≤ a + 1) :
    jsTrunc b ≤ jsTrunc a + 1 := by
  unfold jsTrunc
  split_ifs with hb ha ha
  · have hfl := Int.floor_le_floor h2
    rw [show a + 1 = a + ((1 : ℤ) : ℚ) by norm_num, Int.floor_add_int] at hfl
    omega
  · have hb0 : ⌊b⌋ < 1 := Int.floor_lt.mpr (by exact_mod_cast (by linarith [not_le.mp ha] : b < 1))
    have ha1 : (-1 : ℚ) ≤ a := by linarith
    have := Int.ceil_le_ceil ha1
    rw [show ((-1 : ℚ)) = ((-1 : ℤ) : ℚ) by norm_num, Int.ceil_intCast] at this
    omega
  · exact absurd (le_trans ha h1) hb
  · have hcl := Int.ceil_le_ceil h2
    rw [show a + 1 = a + ((1 : ℤ) : ℚ) by norm_num, Int.ceil_add_int] at hcl
    omega

/-- Two screen coordinates at distance at most the cell size (70) land in
the same or adjacent cells of the truncating discretization. -/
theorem jsTrunc_cell_adjacent {x y : ℚ} (h : |x - y| ≤ 70) :
    ∃ d : ℤ, d ∈ ([-1, 0, 1] : List ℤ) ∧ jsTrunc (y / 70) = jsTrunc (x / 70) + d := by
  rcases abs_le.mp h with ⟨hlo, hhi⟩
  have h70 : (0 : ℚ) < 70 := by norm_num
  have hv1 : y / 70 ≤ x / 70 + 1 := by
    have hq : (y - x) / 70 ≤ 1 := (div_le_one h70).mpr (by linarith)
    rw [sub_div] at hq
    linarith
  have hv2 : x / 70 ≤ y / 70 + 1 := by
    have hq : (x - y) / 70 ≤ 1 := (div_le_one h70).mpr (by linarith)
    rw [sub_div] at hq
    linarith
  refine ⟨jsTrunc (y / 70) - jsTrunc (x / 70), ?_, by ring⟩
  rcases le_total (x / 70) (y / 70) with hor | hor
  · have hm := jsTrunc_mono hor
    have hs := jsTrunc_le_succ hor hv1
    have : jsTrunc (y / 70) - jsTrunc (x / 70) = 0 ∨
        jsTrunc (y / 70) - jsTrunc (x / 70) = 1 := by omega
    rcases this with he | he <;> rw [he] <;> simp
  · have hm := jsTrunc_mono hor
    have hs := jsTrunc_le_succ hor hv2
    have : jsTrunc (y / 70) - jsTrunc (x / 70) = -1 ∨
        jsTrunc (y / 70) - jsTrunc (x / 70) = 0 := by omega
    rcases this with he | he <;> rw [he] <;> simp

end LorenzBg

namespace LorenzBg

/-- After pushing `i` under key `k`, the bucket of `k` is the old bucket
with `i` appended. -/
theorem mapGet_mapPush_self (m : SpatialMap) (k : ℤ) (i : ℕ) :
    mapGet (mapPush m k i) k = some ((mapGet m k).getD [] ++ [i]) := by
  induction m with
  | nil => simp [mapPush, mapGet]
  | cons hd tl ih =>
      obtain ⟨k2, v⟩ := hd
      by_cases hk : k2 = k
      · subst hk
        simp [mapPush, mapGet]
      · simp only [mapPush, mapGet, if_neg hk]
        exact ih

/-- Pushing under key `k` does not shrink any bucket. -/
theorem mapGet_mapPush_preserve (m : SpatialMap) (k k2 : ℤ) (i j : ℕ)
    (h : j ∈ (mapGet m k2).getD []) : j ∈ (mapGet (mapPush m k i) k2).getD [] := by
  by_cases hk : k2 = k
  · subst hk
    rw [mapGet_mapPush_self]
    simp only [Option.getD_some]
    exact List.mem_append_left _ h
  · induction m with
    | nil => simp [mapGet] at h
    | cons hd tl ih =>
        obtain ⟨k3, v⟩ := hd
        by_cases h3 : k3 = k
        · have hne : ¬ k3 = k2 := by
            rw [h3]
            exact fun hh => hk hh.symm
          simp only [mapGet, if_neg hne] at h
          simp only [mapPush, if_pos h3, mapGet, if_neg hne]
          exact h
        · simp only [mapPush, if_neg h3]
          by_cases h32 : k3 = k2
          · subst h32
            simpa [mapGet] using h
          · simp only [mapGet, if_neg h32] at h ⊢
            exact ih h

/-- Buckets only grow along the `buildSpatialHash` loop. -/
theorem buildHashAux_preserve (l : List (Particle ℚ)) :
    ∀ (i0 : ℕ) (m : SpatialMap) (k : ℤ) (j : ℕ),
      j ∈ (mapGet m k).getD [] → j ∈ (mapGet (buildHashAux l i0 m) k).getD [] := by
  induction l with
  | nil => intro i0 m k j h; exact h
  | cons p tl ih =>
      intro i0 m k j h
      exact ih (i0 + 1) _ k j (mapGet_mapPush_preserve m (particleKey p) k i0 j h)

/-- Every particle of the list ends up in the bucket of its own cell key. -/
theorem buildHashAux_mem (l : List (Particle ℚ)) :
    ∀ (i0 : ℕ) (m : SpatialMap) (idx : ℕ) (p : Particle ℚ), l.get? idx = some p →
      (i0 + idx) ∈ (mapGet (buildHashAux l i0 m) (particleKey p)).getD [] := by
  induction l with
  | nil => intro i0 m idx p h; simp at h
  | cons q tl ih =>
      intro i0 m idx p h
      cases idx with
      | zero =>
          simp only [List.get?] at h
          cases h
          simp only [buildHashAux]
          apply buildHashAux_preserve
          rw [mapGet_mapPush_self]
          simp
      | succ idx2 =>
          simp only [List.get?] at h
          have := ih (i0 + 1) (mapPush m (particleKey q) i0) idx2 p h
          simpa [Nat.add_assoc, Nat.add_comm 1 idx2] using this

/-- `buildSpatialHash` registers every particle index under its cell key. -/
theorem buildSpatialHash_mem (ps : List (Particle ℚ)) (idx : ℕ) (p : Particle ℚ)
    (h : ps.get? idx = some p) :
    idx ∈ (mapGet (buildSpatialHash ps) (particleKey p)).getD [] := by
  have := buildHashAux_mem ps 0 [] idx p h
  simpa using this

/-- If `q` is registered in the hash and lies within one cell size of `p` in
both coordinates, the 3x3 neighbor query around `p` returns it. -/
theorem mem_getNearbyParticles (hash : SpatialMap) (p q : Particle ℚ) (j : ℕ)
    (hx : |p.screenX - q.screenX| ≤ 70) (hy : |p.screenY - q.screenY| ≤ 70)
    (hj : j ∈ (mapGet hash (particleKey q)).getD []) :
    j ∈ getNearbyParticles hash p := by
  obtain ⟨dx, hdxmem, hdx⟩ := jsTrunc_cell_adjacent hx
  obtain ⟨dy, hdymem, hdy⟩ := jsTrunc_cell_adjacent hy
  unfold getNearbyParticles
  rw [List.mem_flatMap]
  refine ⟨dx, hdxmem, ?_⟩
  rw [List.mem_flatMap]
  refine ⟨dy, hdymem, ?_⟩
  have hkey : cellKey (cellCoord p.screenX + dx) (cellCoord p.screenY + dy) = particleKey q := by
    unfold particleKey cellCoord
    apply cellKey_congr
    · rw [hdx]
      unfold toInt32
      omega
    · rw [hdy]
      unfold toInt32
      omega
  rw [hkey]
  exact hj

/-- Claim C2: for any two particles of the list whose (clamped) screen
positions are within Euclidean distance 70 — the connection distance, which
equals the cell size — the neighbor query of each one returns the other.
Negative coordinates, the `|0` truncation and the packed key are all covered
by the general statement. -/
theorem C2_neighbor_superset (ps : List (Particle ℚ)) (i j : ℕ) (p q : Particle ℚ)
    (hi : ps.get? i = some p) (hj : ps.get? j = some q)
    (hd : (p.screenX - q.screenX) ^ 2 + (p.screenY - q.screenY) ^ 2 ≤ 70 ^ 2) :
    j ∈ getNearbyParticles (buildSpatialHash ps) p ∧
    i ∈ getNearbyParticles (buildSpatialHash ps) q := by
  have hax : |p.screenX - q.screenX| ≤ 70 := by
    rw [abs_le]
    constructor <;> nlinarith [sq_nonneg (p.screenY - q.screenY), sq_nonneg (p.screenX - q.screenX)]
  have hay : |p.screenY - q.screenY| ≤ 70 := by
    rw [abs_le]
    constructor <;> nlinarith [sq_nonneg (p.screenY - q.screenY), sq_nonneg (p.screenX - q.screenX)]
  have haxs : |q.screenX - p.screenX| ≤ 70 := by rw [abs_sub_comm]; exact hax
  have hays : |q.screenY - p.screenY| ≤ 70 := by rw [abs_sub_comm]; exact hay
  exact ⟨mem_getNearbyParticles _ p q j hax hay (buildSpatialHash_mem ps j q hj),
    mem_getNearbyParticles _ q p i haxs hays (buildSpatialHash_mem ps i p hi)⟩

end LorenzBg

namespace LorenzBg

/-- Membership in the inner connection loop, unfolded into the source's
guard conditions. -/
theorem mem_connInner_iff (ps : List (Particle ℚ)) (ops : List ℚ) (i : ℕ) (p1 : Particle ℚ)
    (nearby : List ℕ) (t : ℕ × ℕ × ℚ) :
    t ∈ connInner ps ops i p1 nearby ↔
      ∃ j p2, j ∈ nearby ∧ i < j ∧ ps.get? j = some p2 ∧ p1.side = p2.side ∧
        ¬ ops.getD j 0 < 0.01 ∧
        (p2.screenX - p1.screenX) * (p2.screenX - p1.screenX) +
          (p2.screenY - p1.screenY) * (p2.screenY - p1.screenY) < 4900 ∧
        t = (i, j, (p2.screenX - p1.screenX) * (p2.screenX - p1.screenX) +
          (p2.screenY - p1.screenY) * (p2.screenY - p1.screenY)) := by
  unfold connInner
  rw [List.mem_flatMap]
  constructor
  · rintro ⟨j, hj, ht⟩
    by_cases hji : j ≤ i
    · rw [if_pos hji] at ht
      simp at ht
    · rw [if_neg hji] at ht
      cases hps : ps.get? j with
      | none =>
          rw [hps] at ht
          simp at ht
      | some p2 =>
          rw [hps] at ht
          dsimp only at ht
          by_cases hside : p1.side ≠ p2.side
          · rw [if_pos hside] at ht
            simp at ht
          · rw [if_neg hside] at ht
            push_neg at hside
            by_cases hop : ops.getD j 0 < 0.01
            · rw [if_pos hop] at ht
              simp at ht
            · rw [if_neg hop] at ht
              by_cases hdist : (p2.screenX - p1.screenX) * (p2.screenX - p1.screenX) +
                  (p2.screenY - p1.screenY) * (p2.screenY - p1.screenY) < 4900
              · rw [if_pos hdist] at ht
                rw [List.mem_singleton] at ht
                exact ⟨j, p2, hj, not_le.mp hji, hps, hside, hop, hdist, ht⟩
              · rw [if_neg hdist] at ht
                simp at ht
  · rintro ⟨j, p2, hj, hij, hps, hside, hop, hdist, ht⟩
    refine ⟨j, hj, ?_⟩
    rw [if_neg (not_le.mpr hij), hps]
    dsimp only
    rw [if_neg (by push_neg; exact hside), if_neg hop, if_pos hdist, List.mem_singleton]
    exact ht

/-- Membership in the outer connection loop, relative to the remaining
particle list and the running start index. -/
theorem mem_connAux (ps : List (Particle ℚ)) (ops : List ℚ) (hash : SpatialMap) :
    ∀ (l : List (Particle ℚ)) (i0 : ℕ) (t : ℕ × ℕ × ℚ),
      t ∈ connAux ps ops hash l i0 ↔
        ∃ k p1, l.get? k = some p1 ∧ ¬ ops.getD (i0 + k) 0 < 0.01 ∧
          t ∈ connInner ps ops (i0 + k) p1 (getNearbyParticles hash p1) := by
  intro l
  induction l with
  | nil =>
      intro i0 t
      simp [connAux]
  | cons p1 tl ih =>
      intro i0 t
      simp only [connAux, List.mem_append]
      constructor
      · rintro (hl | hr)
        · by_cases hop : ops.getD i0 0 < 0.01
          · rw [if_pos hop] at hl
            simp at hl
          · rw [if_neg hop] at hl
            exact ⟨0, p1, rfl, by simpa using hop, by simpa using hl⟩
        · obtain ⟨k, p2, hget, hop, hmem⟩ := (ih (i0 + 1) t).mp hr
          refine ⟨k + 1, p2, by simpa using hget, ?_, ?_⟩
          · have : i0 + (k + 1) = i0 + 1 + k := by omega
            rw [this]
            exact hop
          · have : i0 + (k + 1) = i0 + 1 + k := by omega
            rw [this]
            exact hmem
      · rintro ⟨k, p2, hget, hop, hmem⟩
        cases k with
        | zero =>
            left
            simp only [List.get?] at hget
            cases hget
            rw [if_neg (by simpa using hop)]
            simpa using hmem
        | succ k2 =>
            right
            refine (ih (i0 + 1) t).mpr ⟨k2, p2, by simpa using hget, ?_, ?_⟩
            · have : i0 + 1 + k2 = i0 + (k2 + 1) := by omega
              rw [this]
              exact hop
            · have : i0 + 1 + k2 = i0 + (k2 + 1) := by omega
              rw [this]
              exact hmem

/-- Membership in the full connection pass of one frame. -/
theorem mem_connPairs_iff (ps : List (Particle ℚ)) (ops : List ℚ) (t : ℕ × ℕ × ℚ) :
    t ∈ connPairs ps ops ↔
      ∃ k p1, ps.get? k = some p1 ∧ ¬ ops.getD k 0 < 0.01 ∧
        t ∈ connInner ps ops k p1 (getNearbyParticles (buildSpatialHash ps) p1) := by
  unfold connPairs
  rw [mem_connAux]
  simp

end LorenzBg

namespace LorenzBg



/-- Witness for `C2_neighbor_superset`: two particles at screen distance 10
find each other through the spatial hash. -/
theorem C2_neighbor_superset_witness :
    ([exLeftA, exLeftB].get? 0 = some exLeftA) ∧
    ((exLeftA.screenX - exLeftB.screenX) ^ 2 + (exLeftA.screenY - exLeftB.screenY) ^ 2 ≤ 70 ^ 2) ∧
    (1 ∈ getNearbyParticles (buildSpatialHash [exLeftA, exLeftB]) exLeftA ∧
     0 ∈ getNearbyParticles (buildSpatialHash [exLeftA, exLeftB]) exLeftB) :=
  ⟨rfl, by norm_num [exLeftA, exLeftB],
    C2_neighbor_superset [exLeftA, exLeftB] 0 1 exLeftA exLeftB rfl rfl
      (by norm_num [exLeftA, exLeftB])⟩

end LorenzBg

namespace LorenzBg

/-- The square root of the concrete squared distance 100 is 10. -/
theorem sqrt_ofRat_100 : Real.sqrt ((100 : ℚ) : ℝ) = 10 := by
  rw [show (((100 : ℚ) : ℝ)) = 10 ^ 2 by norm_num]
  exact Real.sqrt_sq (by norm_num)

/-- Two left-side particles at screen distance 10 with opacities 1 produce a
drawn line with alpha 3/14. -/
theorem lineDrawn_example : LineDrawn [exLeftA, exLeftB] [1, 1] 0 1 (3 / 14) := by
  refine ⟨100, ?_, ?_, by norm_num⟩
  · rw [mem_connPairs_iff]
    refine ⟨0, exLeftA, rfl, by norm_num, ?_⟩
    rw [mem_connInner_iff]
    refine ⟨1, exLeftB, ?_, Nat.zero_lt_one, rfl, by rfl, by norm_num, ?_, ?_⟩
    · exact mem_getNearbyParticles _ exLeftA exLeftB 1
        (by norm_num [exLeftA, exLeftB]) (by norm_num [exLeftA, exLeftB])
        (buildSpatialHash_mem [exLeftA, exLeftB] 1 exLeftB rfl)
    · norm_num [exLeftA, exLeftB]
    · norm_num [exLeftA, exLeftB]
  · have hmin : min (([1, 1] : List ℚ).getD 0 0) (([1, 1] : List ℚ).getD 1 0) = 1 := by
      norm_num
    rw [hmin]
    unfold lineAlpha
    rw [sqrt_ofRat_100]
    norm_num

/-- No line is drawn between the particles at screen distance 80. -/
theorem lineDrawn_far_none (i j : ℕ) (a : ℝ) :
    ¬ LineDrawn [exLeftA, exLeftC] [1, 1] i j a := by
  rintro ⟨d, hmem, -, -⟩
  rw [mem_connPairs_iff] at hmem
  obtain ⟨k, p1, hk, -, hinner⟩ := hmem
  rw [mem_connInner_iff] at hinner
  obtain ⟨j2, p2, -, hij, hps, -, -, hdist, -⟩ := hinner
  match k, hk with
  | 0, hk =>
      cases hk
      match j2, hij, hps with
      | 1, _, hps =>
          cases hps
          norm_num [exLeftA, exLeftC] at hdist
  | 1, hk =>
      cases hk
      match j2, hij, hps with
      | n + 2, _, hps => simp at hps

end LorenzBg

namespace LorenzBg

/-- Claim C6: in the connection pass of an active frame, a line between
particles `i` and `j` with alpha `a` is drawn exactly when `j` is returned
by the neighbor query for `i`, `j > i`, the sides agree, both opacities pass
the visibility threshold (the code draws when `opacity ≥ 0.01`, i.e. not
below it), the squared distance is below 4900, and
`a = (1 - dist/70) * 0.25 * min(op_i, op_j)` is above 0.01; and concretely,
two left-side particles with opacity 1 at distance 10 get a line with alpha
3/14, while the same particles at distance 80 get none. -/
theorem C6_connection_rule :
    (∀ (ps : List (Particle ℚ)) (ops : List ℚ) (i j : ℕ) (p1 p2 : Particle ℚ) (a : ℝ),
      ps.get? i = some p1 → ps.get? j = some p2 →
      (LineDrawn ps ops i j a ↔
        (j ∈ getNearbyParticles (buildSpatialHash ps) p1 ∧ i < j ∧ p1.side = p2.side ∧
         0.01 ≤ ops.getD i 0 ∧ 0.01 ≤ ops.getD j 0 ∧
         (p2.screenX - p1.screenX) * (p2.screenX - p1.screenX) +
           (p2.screenY - p1.screenY) * (p2.screenY - p1.screenY) < 4900 ∧
         a = lineAlpha ((p2.screenX - p1.screenX) * (p2.screenX - p1.screenX) +
             (p2.screenY - p1.screenY) * (p2.screenY - p1.screenY))
             (min (ops.getD i 0) (ops.getD j 0)) ∧
         0.01 < a))) ∧
    LineDrawn [exLeftA, exLeftB] [1, 1] 0 1 (3 / 14) ∧
    (∀ (i j : ℕ) (a : ℝ), ¬ LineDrawn [exLeftA, exLeftC] [1, 1] i j a) := by
  refine ⟨?_, lineDrawn_example, lineDrawn_far_none⟩
  intro ps ops i j p1 p2 a hi hj
  constructor
  · rintro ⟨d, hmem, ha, hgt⟩
    rw [mem_connPairs_iff] at hmem
    obtain ⟨k, p1b, hk, hop, hinner⟩ := hmem
    rw [mem_connInner_iff] at hinner
    obtain ⟨j2, p2b, hnear, hij, hps, hside, hop2, hdist, heq⟩ := hinner
    obtain ⟨hik, hjj, hd⟩ : i = k ∧ j = j2 ∧ d =
        (p2b.screenX - p1b.screenX) * (p2b.screenX - p1b.screenX) +
        (p2b.screenY - p1b.screenY) * (p2b.screenY - p1b.screenY) := by
      have h1 := congrArg Prod.fst heq
      have h2 := congrArg (fun t => t.2.1) heq
      have h3 := congrArg (fun t => t.2.2) heq
      exact ⟨h1, h2, h3⟩
    subst hik
    subst hjj
    rw [hi] at hk
    cases hk
    rw [hj] at hps
    cases hps
    subst hd
    exact ⟨hnear, hij, hside, not_lt.mp hop, not_lt.mp hop2, hdist, ha, hgt⟩
  · rintro ⟨hnear, hij, hside, hopi, hopj, hdist, ha, hgt⟩
    refine ⟨(p2.screenX - p1.screenX) * (p2.screenX - p1.screenX) +
      (p2.screenY - p1.screenY) * (p2.screenY - p1.screenY), ?_, ha, hgt⟩
    rw [mem_connPairs_iff]
    refine ⟨i, p1, hi, not_lt.mpr hopi, ?_⟩
    rw [mem_connInner_iff]
    exact ⟨j, p2, hnear, hij, hj, hside, not_lt.mpr hopj, hdist, rfl⟩

/-- Witness for `C6_connection_rule`: the characterization instantiated for
the two concrete particles at distance 10. -/
theorem C6_connection_rule_witness :
    ([exLeftA, exLeftB].get? 0 = some exLeftA) ∧
    ([exLeftA, exLeftB].get? 1 = some exLeftB) ∧
    (LineDrawn [exLeftA, exLeftB] [1, 1] 0 1 (3 / 14) ↔
      (1 ∈ getNearbyParticles (buildSpatialHash [exLeftA, exLeftB]) exLeftA ∧ 0 < 1 ∧
       exLeftA.side = exLeftB.side ∧
       0.01 ≤ ([1, 1] : List ℚ).getD 0 0 ∧ 0.01 ≤ ([1, 1] : List ℚ).getD 1 0 ∧
       (exLeftB.screenX - exLeftA.screenX) * (exLeftB.screenX - exLeftA.screenX) +
         (exLeftB.screenY - exLeftA.screenY) * (exLeftB.screenY - exLeftA.screenY) < 4900 ∧
       (3 / 14 : ℝ) = lineAlpha ((exLeftB.screenX - exLeftA.screenX) *
           (exLeftB.screenX - exLeftA.screenX) +
           (exLeftB.screenY - exLeftA.screenY) * (exLeftB.screenY - exLeftA.screenY))
           (min (([1, 1] : List ℚ).getD 0 0) (([1, 1] : List ℚ).getD 1 0)) ∧
       (0.01 : ℝ) < 3 / 14)) :=
  ⟨rfl, rfl,
    C6_connection_rule.1 [exLeftA, exLeftB] [1, 1] 0 1 exLeftA exLeftB (3 / 14) rfl rfl⟩

/-- Claim C7: a drawn line never has `i = j`, is never emitted in both
orderings, and never joins particles of different sides. -/
theorem C7_pair_uniqueness (ps : List (Particle ℚ)) (ops : List ℚ) (i j : ℕ) (a : ℝ)
    (h : LineDrawn ps ops i j a) :
    i ≠ j ∧ (∀ b : ℝ, ¬ LineDrawn ps ops j i b) ∧
    ∃ p1 p2, ps.get? i = some p1 ∧ ps.get? j = some p2 ∧ p1.side = p2.side := by
  have key : ∀ (i2 j2 : ℕ) (b : ℝ), LineDrawn ps ops i2 j2 b → i2 < j2 ∧
      ∃ p1 p2, ps.get? i2 = some p1 ∧ ps.get? j2 = some p2 ∧ p1.side = p2.side := by
    rintro i2 j2 b ⟨d, hmem, -, -⟩
    rw [mem_connPairs_iff] at hmem
    obtain ⟨k, p1, hk, -, hinner⟩ := hmem
    rw [mem_connInner_iff] at hinner
    obtain ⟨j3, p2, -, hij, hps, hside, -, -, heq⟩ := hinner
    have h1 : i2 = k := congrArg Prod.fst heq
    have h2 : j2 = j3 := congrArg (fun t => t.2.1) heq
    subst h1
    subst h2
    exact ⟨hij, p1, p2, hk, hps, hside⟩
  obtain ⟨hij, hex⟩ := key i j a h
  exact ⟨Nat.ne_of_lt hij, fun b hb => absurd (key j i b hb).1 (Nat.lt_asymm hij), hex⟩

/-- Witness for `C7_pair_uniqueness` at the concrete drawn line. -/
theorem C7_pair_uniqueness_witness :
    LineDrawn [exLeftA, exLeftB] [1, 1] 0 1 (3 / 14) ∧
    ((0 : ℕ) ≠ 1 ∧ (∀ b : ℝ, ¬ LineDrawn [exLeftA, exLeftB] [1, 1] 1 0 b) ∧
     ∃ p1 p2, [exLeftA, exLeftB].get? 0 = some p1 ∧ [exLeftA, exLeftB].get? 1 = some p2 ∧
       p1.side = p2.side) :=
  ⟨lineDrawn_example,
    C7_pair_uniqueness [exLeftA, exLeftB] [1, 1] 0 1 (3 / 14) lineDrawn_example⟩

end LorenzBg

namespace LorenzBg

/-- The three sinusoidal terms of `smoothNoise` are bounded by their
amplitudes 0.5, 0.3, 0.2. -/
theorem abs_smoothNoise_le_one (x y t : ℝ) : |smoothNoise x y t| ≤ 1 := by
  unfold smoothNoise
  have h1 : |Real.sin (x * 1.3 + t) * Real.cos (y * 0.9 + t * 0.7) * 0.5| ≤ 0.5 := by
    rw [abs_mul, abs_mul]
    have a1 := Real.abs_sin_le_one (x * 1.3 + t)
    have a2 := Real.abs_cos_le_one (y * 0.9 + t * 0.7)
    have b1 := abs_nonneg (Real.sin (x * 1.3 + t))
    have b2 := abs_nonneg (Real.cos (y * 0.9 + t * 0.7))
    rw [show |(0.5 : ℝ)| = 0.5 by norm_num]
    nlinarith
  have h2 : |Real.sin (x * 2.1 - t * 0.5) * Real.sin (y * 1.7 + t * 0.3) * 0.3| ≤ 0.3 := by
    rw [abs_mul, abs_mul]
    have a1 := Real.abs_sin_le_one (x * 2.1 - t * 0.5)
    have a2 := Real.abs_sin_le_one (y * 1.7 + t * 0.3)
    have b1 := abs_nonneg (Real.sin (x * 2.1 - t * 0.5))
    have b2 := abs_nonneg (Real.sin (y * 1.7 + t * 0.3))
    rw [show |(0.3 : ℝ)| = 0.3 by norm_num]
    nlinarith
  have h3 : |Real.cos (x * 0.8 + y * 1.1 + t * 0.9) * 0.2| ≤ 0.2 := by
    rw [abs_mul]
    have a1 := Real.abs_cos_le_one (x * 0.8 + y * 1.1 + t * 0.9)
    rw [show |(0.2 : ℝ)| = 0.2 by norm_num]
    nlinarith [abs_nonneg (Real.cos (x * 0.8 + y * 1.1 + t * 0.9))]
  calc |Real.sin (x * 1.3 + t) * Real.cos (y * 0.9 + t * 0.7) * 0.5 +
      Real.sin (x * 2.1 - t * 0.5) * Real.sin (y * 1.7 + t * 0.3) * 0.3 +
      Real.cos (x * 0.8 + y * 1.1 + t * 0.9) * 0.2| ≤
      |Real.sin (x * 1.3 + t) * Real.cos (y * 0.9 + t * 0.7) * 0.5 +
        Real.sin (x * 2.1 - t * 0.5) * Real.sin (y * 1.7 + t * 0.3) * 0.3| +
      |Real.cos (x * 0.8 + y * 1.1 + t * 0.9) * 0.2| := abs_add _ _
    _ ≤ |Real.sin (x * 1.3 + t) * Real.cos (y * 0.9 + t * 0.7) * 0.5| +
        |Real.sin (x * 2.1 - t * 0.5) * Real.sin (y * 1.7 + t * 0.3) * 0.3| +
        |Real.cos (x * 0.8 + y * 1.1 + t * 0.9) * 0.2| := by
          linarith [abs_add (Real.sin (x * 1.3 + t) * Real.cos (y * 0.9 + t * 0.7) * 0.5)
            (Real.sin (x * 2.1 - t * 0.5) * Real.sin (y * 1.7 + t * 0.3) * 0.3)]
    _ ≤ 1 := by linarith

/-- Claim C10: `smoothNoise` always lies in `[-1, 1]`, so the perturbations
`noiseX * 0.15` and `noiseY * 0.2` added by `projectToScreen` are bounded by
0.15 and 0.2 in absolute value. -/
theorem C10_noise_bounded :
    (∀ x y t : ℝ, -1 ≤ smoothNoise x y t ∧ smoothNoise x y t ≤ 1) ∧
    (∀ x y t : ℝ, |smoothNoise x y t * 0.15| ≤ 0.15 ∧ |smoothNoise x y t * 0.2| ≤ 0.2) := by
  refine ⟨fun x y t => abs_le.mp (abs_smoothNoise_le_one x y t), fun x y t => ⟨?_, ?_⟩⟩
  · rw [abs_mul, show |(0.15 : ℝ)| = 0.15 by norm_num]
    nlinarith [abs_smoothNoise_le_one x y t, abs_nonneg (smoothNoise x y t)]
  · rw [abs_mul, show |(0.2 : ℝ)| = 0.2 by norm_num]
    nlinarith [abs_smoothNoise_le_one x y t, abs_nonneg (smoothNoise x y t)]

end LorenzBg

namespace LorenzBg



end LorenzBg

namespace LorenzBg

/-- Claim C8: whatever the 3D state, noise seeds and time, the clamps of
`projectToScreen` keep the screen position inside the particle's side band
plus the fixed overscan: `[-20, marginWidth + 0.08*width]` for the left
side, `[width - marginWidth - 0.08*width, width + 20]` for the right side,
and `[-20, height + 20]` vertically. -/
theorem C8_projector_bands (width height marginWidth time : ℝ) (p : Particle ℝ)
    (hw : 0 ≤ width) (hh : 0 ≤ height) (hm : 0 ≤ marginWidth) :
    (p.side = 0 →
      -20 ≤ (projectToScreen width height marginWidth time p).screenX ∧
      (projectToScreen width height marginWidth time p).screenX ≤
        marginWidth + width * 0.08) ∧
    (p.side = 1 →
      width - marginWidth - width * 0.08 ≤
        (projectToScreen width height marginWidth time p).screenX ∧
      (projectToScreen width height marginWidth time p).screenX ≤ width + 20) ∧
    (-20 ≤ (projectToScreen width height marginWidth time p).screenY ∧
      (projectToScreen width height marginWidth time p).screenY ≤ height + 20) := by
  unfold projectToScreen
  dsimp only
  refine ⟨?_, ?_, ?_⟩
  · intro h0
    rw [if_pos h0]
    split_ifs <;> constructor <;> linarith
  · intro h1
    rw [if_neg (by rw [h1]; exact one_ne_zero)]
    split_ifs <;> constructor <;> linarith
  · split_ifs <;> constructor <;> linarith

/-- Witness for `C8_projector_bands` at a concrete geometry and particle. -/
theorem C8_projector_bands_witness :
    ((0 : ℝ) ≤ 100) ∧
    (-20 ≤ (projectToScreen 100 100 32 0 exRealP).screenX ∧
      (projectToScreen 100 100 32 0 exRealP).screenX ≤ 32 + 100 * 0.08) :=
  ⟨by norm_num,
    (C8_projector_bands 100 100 32 0 exRealP (by norm_num) (by norm_num) (by norm_num)).1 rfl⟩

end LorenzBg

namespace LorenzBg



/-- Claim C9: a hidden tick or a throttled tick (elapsed time below
`FRAME_INTERVAL = 1000/30`) leaves the whole simulation state — particles,
opacities, simulation time, spatial hash, `lastFrameTime` — unchanged; an
active tick advances the simulation time by exactly `CONFIG.noiseSpeed =
0.0006`, independently of the elapsed wall-clock time, and records the
frame timestamp. -/
theorem C9_scheduler (s : SimState) (currentTime : ℝ)
    (width height marginWidth centerX marginInnerEdge fadeZone : ℝ)
    (rands : ℕ → ℝ × ℝ × ℝ) :
    (renderStep false currentTime width height marginWidth centerX marginInnerEdge fadeZone
        rands s = s) ∧
    (currentTime - s.lastFrameTime < 1000 / 30 →
      renderStep true currentTime width height marginWidth centerX marginInnerEdge fadeZone
        rands s = s) ∧
    (¬ currentTime - s.lastFrameTime < 1000 / 30 →
      (renderStep true currentTime width height marginWidth centerX marginInnerEdge fadeZone
          rands s).time = s.time + 0.0006 ∧
      (renderStep true currentTime width height marginWidth centerX marginInnerEdge fadeZone
          rands s).lastFrameTime = currentTime) := by
  refine ⟨?_, ?_, ?_⟩
  · unfold renderStep
    rw [if_pos rfl]
  · intro h
    unfold renderStep
    rw [if_neg (by simp), if_pos h]
  · intro h
    unfold renderStep
    rw [if_neg (by simp), if_neg h]
    exact ⟨rfl, rfl⟩

/-- Witness for `C9_scheduler`: a throttled tick at elapsed time 10 changes
nothing, and an active tick at elapsed time 100 advances time by 0.0006. -/
theorem C9_scheduler_witness :
    ((10 : ℝ) - exState.lastFrameTime < 1000 / 30) ∧
    (renderStep true 10 100 100 32 50 18 10 (fun _ => (0, 0, 0)) exState = exState) ∧
    (¬ (100 : ℝ) - exState.lastFrameTime < 1000 / 30) ∧
    ((renderStep true 100 100 100 32 50 18 10 (fun _ => (0, 0, 0)) exState).time =
      exState.time + 0.0006) :=
  ⟨by norm_num [exState],
    (C9_scheduler exState 10 100 100 32 50 18 10 (fun _ => (0, 0, 0))).2.1
      (by norm_num [exState]),
    by norm_num [exState],
    ((C9_scheduler exState 100 100 100 32 50 18 10 (fun _ => (0, 0, 0))).2.2
      (by norm_num [exState])).1⟩

end LorenzBg
